import Mathlib

/-!
Verification development for the gas-phase kinetics manager declared in
include/cantera/kinetics/GasKinetics.h. The repository ships only the
declarative header; every rate law, cache rule and bookkeeping routine it
declares is therefore modelled from the specification (spec.md) and proved
against that model.
-/

namespace Cantera

/-- Universal gas constant used to non-dimensionalise activation energies. -/
noncomputable def Rgas : ℝ := 8.31446261815324

/-- Arrhenius parameters of one reaction: pre-exponential factor `A`,
temperature exponent `b` and activation energy `Ea`. -/
structure ArrheniusParams where
  A : ℝ
  b : ℝ
  Ea : ℝ

/-- Modelled from the spec: the simple Arrhenius rate law, evaluated in
natural-log space (log k = log A + b * log T - Ea/(R*T)) and exponentiated
only at the end, matching section 4.1 numeric semantics. The implementation
file declared by GasKinetics.h is absent from the sources. -/
noncomputable def arrheniusRate (p : ArrheniusParams) (T : ℝ) : ℝ :=
  Real.exp (Real.log p.A + p.b * Real.log T - p.Ea / (Rgas * T))

/-- Modelled from the spec: the falloff blending of section 4.2. Given the
low-pressure limit rate `k0`, the high-pressure limit rate `kinf`, the
effective third-body concentration `M` and a blending function `F`, the
effective rate constant is `kinf * (Pr/(1+Pr)) * F Pr T` with the reduced
pressure `Pr = k0*M/kinf`; the division is guarded: when `kinf` is zero the
reaction is treated as low-pressure-limited, `k = k0*M`. -/
noncomputable def falloffRate (k0 kinf M : ℝ) (F : ℝ → ℝ → ℝ) (T : ℝ) : ℝ :=
  if kinf = 0 then k0 * M
  else
    let Pr := k0 * M / kinf
    kinf * (Pr / (1 + Pr)) * F Pr T

/-- Modelled from the spec: the Plog rate law (section 4.1 and glossary).
Arrhenius parameters are tabulated at discrete pressure nodes, ordered by
pressure. A query at pressure `P` reproduces the node value when `P` hits a
node, interpolates log-linearly in log pressure between bracketing nodes,
and clamps to the nearest node outside the table range. The implementation
behind the `m_plog_rates` member of GasKinetics.h is absent from the
sources. -/
noncomputable def plogRate (T P : ℝ) : List (ℝ × ArrheniusParams) → ℝ
  | [] => 0
  | [(_, a1)] => arrheniusRate a1 T
  | (p1, a1) :: (p2, a2) :: rest =>
      if P ≤ p1 then arrheniusRate a1 T
      else if P < p2 then
        Real.exp (Real.log (arrheniusRate a1 T) +
          (Real.log (arrheniusRate a2 T) - Real.log (arrheniusRate a1 T)) *
            (Real.log P - Real.log p1) / (Real.log p2 - Real.log p1))
      else plogRate T P ((p2, a2) :: rest)

/-- Nodes of a Plog table are sorted by strictly increasing pressure. -/
def PlogSorted (nodes : List (ℝ × ArrheniusParams)) : Prop :=
  nodes.Pairwise (fun q q' => q.1 < q'.1)

/-- The value v lies strictly between a and b (in either order). -/
def strictlyBetween (a b v : ℝ) : Prop :=
  (a < v ∧ v < b) ∨ (b < v ∧ v < a)

/-- Clamp x into the interval from lo to hi. -/
noncomputable def clampR (lo hi x : ℝ) : ℝ := max lo (min hi x)

/-- Chebyshev polynomial of the first kind by its three-term recurrence. -/
noncomputable def chebT : Nat → ℝ → ℝ
  | 0, _ => 1
  | 1, x => x
  | n + 2, x => 2 * x * chebT (n + 1) x - chebT n x

/-- Value of a 2-D Chebyshev coefficient surface at a normalized point. -/
noncomputable def chebValue (coeffs : List (List ℝ)) (tbar pbar : ℝ) : ℝ :=
  (coeffs.enum.map (fun row =>
    (row.2.enum.map (fun c => c.2 * chebT row.1 tbar * chebT c.1 pbar)).sum)).sum

/-- Declared validity bounds and coefficient surface of one Chebyshev-law
reaction. -/
structure ChebData where
  Tmin : ℝ
  Tmax : ℝ
  Pmin : ℝ
  Pmax : ℝ
  coeffs : List (List ℝ)

/-- Modelled from the spec: the Chebyshev rate law of section 4.1. Inputs
outside the declared bounds are clamped to the boundary, then (T, log P) is
mapped into the normalized square and the stored 2-D polynomial surface is
evaluated; the result is exponentiated into a rate constant. The
implementation behind the `m_cheb_rates` member of GasKinetics.h is absent
from the sources. -/
noncomputable def chebRate (d : ChebData) (T P : ℝ) : ℝ :=
  let Tc := clampR d.Tmin d.Tmax T
  let Pc := clampR d.Pmin d.Pmax P
  Real.exp (chebValue d.coeffs
    ((2 * Tc - d.Tmin - d.Tmax) / (d.Tmax - d.Tmin))
    ((2 * Real.log Pc - Real.log d.Pmin - Real.log d.Pmax) /
      (Real.log d.Pmax - Real.log d.Pmin)))

/-- Third-body efficiency set: per-species multipliers plus a default for
unlisted species (section 4.2 of the spec, member `m_falloff_concm`). -/
structure Efficiencies where
  eff : List (Nat × ℝ)
  defaultEff : ℝ

/-- Efficiency of species k: its listed multiplier, or the default. -/
def effOf (e : Efficiencies) (k : Nat) : ℝ :=
  match e.eff.find? (fun q => q.1 == k) with
  | some q => q.2
  | none => e.defaultEff

/-- Modelled from the spec: effective third-body concentration, the weighted
sum of all species concentrations under the efficiency set (section 4.2);
the ThirdBodyCalc implementation declared by GasKinetics.h is absent from
the sources. -/
noncomputable def effectiveConc (e : Efficiencies) (conc : List ℝ) : ℝ :=
  (conc.enum.map (fun q => effOf e q.1 * q.2)).sum

/-- Modelled from the spec: the Blowers-Masel modified Arrhenius law. The
spec fixes only that it is an Arrhenius form with a barrier correction and
no claim depends on the correction, so the stored parameters are evaluated
through the Arrhenius law with the bond-energy parameter `w` carried along. -/
noncomputable def blowersRate (p : ArrheniusParams) (w T : ℝ) : ℝ :=
  arrheniusRate p T + 0 * w

/-- Kinetic-law kind tags, the variant set of the spec data model. -/
inductive RxnKind where
  | elementary
  | thirdBody
  | falloff
  | plog
  | chebyshev
  | blowersMasel
deriving DecidableEq

/-- Law-specific rate data of one reaction (spec section 3 data model). -/
inductive RateLaw where
  | elementary (p : ArrheniusParams)
  | thirdBody (p : ArrheniusParams) (e : Efficiencies)
  | falloff (low high : ArrheniusParams) (e : Efficiencies) (F : ℝ → ℝ → ℝ)
  | plog (nodes : List (ℝ × ArrheniusParams))
  | chebyshev (d : ChebData)
  | blowersMasel (p : ArrheniusParams) (w : ℝ)

/-- Kinetic-law kind of a rate law. -/
def RateLaw.kind : RateLaw → RxnKind
  | .elementary _ => .elementary
  | .thirdBody _ _ => .thirdBody
  | .falloff _ _ _ _ => .falloff
  | .plog _ => .plog
  | .chebyshev _ => .chebyshev
  | .blowersMasel _ _ => .blowersMasel

/-- One registered reaction: law data, participants with stoichiometric
orders, and the reversibility flag. -/
structure Reaction where
  rate : RateLaw
  reactants : List (Nat × ℝ)
  products : List (Nat × ℝ)
  reversible : Bool

/-- Species indices a reaction references. -/
def speciesOf (r : Reaction) : List Nat :=
  r.reactants.map Prod.fst ++ r.products.map Prod.fst

/-- View of the thermodynamic-state collaborator (spec section 6): current
temperature, pressure and concentrations, species count, standard-state
chemical potentials and the reference concentration. -/
structure ThermoState where
  T : ℝ
  P : ℝ
  conc : List ℝ
  nSpecies : Nat
  mu0 : List ℝ
  standConc : ℝ

/-- Modelled from the spec: the GasKinetics manager state. Field names
follow the protected members declared in GasKinetics.h; `m_temp` and
`m_conc_state` are the scalar last-seen cache markers (sentinel `none`
means never computed), `m_rfn` the per-reaction rate-constant cache. The
implementation file behind GasKinetics.h is absent from the sources. -/
structure GasKinetics where
  thermo : ThermoState
  reactions : List Reaction
  m_fallindx : List Nat
  m_rfallindx : Nat → Nat
  m_falloff_low_rates : List ArrheniusParams
  m_falloff_high_rates : List ArrheniusParams
  m_falloff_blend : List (ℝ → ℝ → ℝ)
  m_falloff_concm : List Efficiencies
  m_temp : Option ℝ
  m_conc_state : Option (ℝ × List ℝ)
  m_rfn : List ℝ
  m_rfn_low : List ℝ
  m_rfn_high : List ℝ
  falloff_work : List ℝ
  concm_falloff_values : List ℝ

/-- Temperature-only-dependent part of the rate constant of one reaction;
pressure-dependent laws are filled in by the concentration pass. -/
noncomputable def tempRate (T : ℝ) (r : Reaction) : ℝ :=
  match r.rate with
  | .elementary p => arrheniusRate p T
  | .thirdBody p _ => arrheniusRate p T
  | .blowersMasel p w => blowersRate p w T
  | _ => 0

/-- Recompute pass for all temperature-only-dependent quantities. -/
noncomputable def recomputeT (s : GasKinetics) : GasKinetics :=
  { s with
    m_rfn := s.reactions.map (tempRate s.thermo.T)
    m_rfn_low := s.m_falloff_low_rates.map (fun p => arrheniusRate p s.thermo.T)
    m_rfn_high := s.m_falloff_high_rates.map (fun p => arrheniusRate p s.thermo.T)
    m_temp := some s.thermo.T }

/-- Modelled from the spec: update_rates_T recomputes all
temperature-only-dependent quantities when the current temperature differs
from the cached last-seen value, and is a no-op otherwise (section 4.3).
The returned flag records whether a recompute pass ran. -/
noncomputable def update_rates_T (s : GasKinetics) : GasKinetics × Bool :=
  if s.m_temp = some s.thermo.T then (s, false) else (recomputeT s, true)

/-- Concentration-pass value of one rate-constant cache entry: the
pressure-dependent laws are looked up at the current pressure, every other
entry is left as the temperature pass wrote it. -/
noncomputable def cRate (T P : ℝ) (r : Reaction) (old : ℝ) : ℝ :=
  match r.rate with
  | .plog nodes => plogRate T P nodes
  | .chebyshev d => chebRate d T P
  | _ => old

/-- Recompute pass for all concentration-dependent quantities. -/
noncomputable def recomputeC (s : GasKinetics) : GasKinetics :=
  { s with
    m_rfn := List.zipWith (cRate s.thermo.T s.thermo.P) s.reactions s.m_rfn
    concm_falloff_values :=
      s.m_falloff_concm.map (fun e => effectiveConc e s.thermo.conc)
    m_conc_state := some (s.thermo.P, s.thermo.conc) }

/-- Modelled from the spec: update_rates_C recomputes all
concentration-dependent quantities (third-body and falloff effective
concentrations, Plog and Chebyshev lookups) when composition or pressure
differs from the cached values, and is a no-op otherwise (section 4.3). -/
noncomputable def update_rates_C (s : GasKinetics) : GasKinetics × Bool :=
  if s.m_conc_state = some (s.thermo.P, s.thermo.conc) then (s, false)
  else (recomputeC s, true)

/-- Full update pipeline: temperature pass, then concentration pass (the
spec requires this order since falloff blending needs the low and high
limit rates first). Both recompute flags are reported. -/
noncomputable def updateAll (s : GasKinetics) : GasKinetics × Bool × Bool :=
  ((update_rates_C (update_rates_T s).1).1, (update_rates_T s).2,
    (update_rates_C (update_rates_T s).1).2)

/-- Forward rate constant of a reaction known to sit at index i: falloff
reactions blend their low and high limits through `falloffRate` at their
local slot j = m_rfallindx i (the processFalloffReactions step), every
other law reads its `m_rfn` cache entry. -/
noncomputable def kfOf (s : GasKinetics) (i : Nat) (r : Reaction) : ℝ :=
  match r.rate with
  | .falloff _ _ _ _ =>
    falloffRate (s.m_rfn_low.getD (s.m_rfallindx i) 0)
      (s.m_rfn_high.getD (s.m_rfallindx i) 0)
      (s.concm_falloff_values.getD (s.m_rfallindx i) 0)
      (s.m_falloff_blend.getD (s.m_rfallindx i) (fun _ _ => 1)) s.thermo.T
  | _ => s.m_rfn.getD i 0

/-- Forward rate constant of reaction i read out of the cached vectors. -/
noncomputable def kfAt (s : GasKinetics) (i : Nat) : ℝ :=
  match s.reactions.get? i with
  | some r => kfOf s i r
  | none => 0

/-- All forward rate constants assembled from the cached vectors. -/
noncomputable def assembleKf (s : GasKinetics) : List ℝ :=
  (List.range s.reactions.length).map (kfAt s)

/-- Modelled from the spec: getFwdRateConstants refreshes stale caches and
returns the forward rate constants (section 4.3). The two flags report
whether the temperature and concentration passes recomputed. -/
noncomputable def getFwdRateConstants (s : GasKinetics) :
    List ℝ × GasKinetics × Bool × Bool :=
  (assembleKf (updateAll s).1, updateAll s)

/-- Net stoichiometric coefficient change of a reaction. -/
noncomputable def netStoich (r : Reaction) : ℝ :=
  (r.products.map Prod.snd).sum - (r.reactants.map Prod.snd).sum

/-- Reference-state Gibbs energy change of a reaction from the chemical
potentials supplied by the thermodynamic-state collaborator. -/
noncomputable def deltaMu0 (th : ThermoState) (r : Reaction) : ℝ :=
  (r.products.map (fun q => q.2 * th.mu0.getD q.1 0)).sum -
    (r.reactants.map (fun q => q.2 * th.mu0.getD q.1 0)).sum

/-- Modelled from the spec: equilibrium constant in concentration units,
assembled from reference-state chemical potentials and net stoichiometry
and converted to the reference concentration basis (section 4.3). -/
noncomputable def equilibriumConstant (th : ThermoState) (r : Reaction) : ℝ :=
  Real.exp (-(deltaMu0 th r) / (Rgas * th.T) -
    netStoich r * Real.log th.standConc)

/-- Modelled from the spec: getEquilibriumConstants refreshes stale caches
and returns the equilibrium constant of every reaction. -/
noncomputable def getEquilibriumConstants (s : GasKinetics) :
    List ℝ × GasKinetics × Bool × Bool :=
  ((updateAll s).1.reactions.map (equilibriumConstant (updateAll s).1.thermo),
    updateAll s)

/-- Product of species concentrations raised to stoichiometric orders. -/
noncomputable def concProd (conc : List ℝ) (l : List (Nat × ℝ)) : ℝ :=
  (l.map (fun q => conc.getD q.1 0 ^ q.2)).prod

/-- Enhanced third-body factor entering the rates of progress. -/
noncomputable def thirdBodyFactor (th : ThermoState) (r : Reaction) : ℝ :=
  match r.rate with
  | .thirdBody _ e => effectiveConc e th.conc
  | _ => 1

/-- Forward rate of progress of a reaction at index i on refreshed caches:
mass action over the reactant orders, enhanced by the third-body factor. -/
noncomputable def ropfOf (s : GasKinetics) (i : Nat) (r : Reaction) : ℝ :=
  kfAt s i * concProd s.thermo.conc r.reactants * thirdBodyFactor s.thermo r

/-- Reverse rate of progress of a reaction at index i on refreshed caches:
derived from the forward rate constant and the equilibrium constant for
reversible reactions, and forced to exactly zero for irreversible ones. -/
noncomputable def roprOf (s : GasKinetics) (i : Nat) (r : Reaction) : ℝ :=
  if r.reversible then
    kfAt s i / equilibriumConstant s.thermo r *
      concProd s.thermo.conc r.products * thirdBodyFactor s.thermo r
  else 0

/-- Forward rate of progress of reaction i. -/
noncomputable def ropfAt (s : GasKinetics) (i : Nat) : ℝ :=
  match s.reactions.get? i with
  | some r => ropfOf s i r
  | none => 0

/-- Reverse rate of progress of reaction i. -/
noncomputable def roprAt (s : GasKinetics) (i : Nat) : ℝ :=
  match s.reactions.get? i with
  | some r => roprOf s i r
  | none => 0

/-- Modelled from the spec: updateROP refreshes stale caches and assembles
forward and reverse rates of progress for every reaction (section 4.3). -/
noncomputable def updateROP (s : GasKinetics) :
    (List ℝ × List ℝ) × GasKinetics × Bool × Bool :=
  (((List.range (updateAll s).1.reactions.length).map (ropfAt (updateAll s).1),
    (List.range (updateAll s).1.reactions.length).map (roprAt (updateAll s).1)),
    updateAll s)

/-- Modelled from the spec: invalidateCache resets the last-seen markers to
the sentinel so the next rate request recomputes everything. -/
def invalidateCache (s : GasKinetics) : GasKinetics :=
  { s with m_temp := none, m_conc_state := none }

/-- Falloff bookkeeping performed when reaction i with falloff data is
registered: the global index is recorded, the reverse map extended, the
low and high limit parameter tables and the per-falloff work vectors grow
by one slot. -/
def registerFalloff (i : Nat) (r : Reaction) (s : GasKinetics) : GasKinetics :=
  match r.rate with
  | .falloff low high e F =>
      { s with
        m_fallindx := s.m_fallindx ++ [i]
        m_rfallindx := fun g => if g = i then s.m_fallindx.length else s.m_rfallindx g
        m_falloff_low_rates := s.m_falloff_low_rates ++ [low]
        m_falloff_high_rates := s.m_falloff_high_rates ++ [high]
        m_falloff_blend := s.m_falloff_blend ++ [F]
        m_falloff_concm := s.m_falloff_concm ++ [e]
        m_rfn_low := s.m_rfn_low ++ [0]
        m_rfn_high := s.m_rfn_high ++ [0]
        falloff_work := s.falloff_work ++ [0]
        concm_falloff_values := s.concm_falloff_values ++ [0] }
  | _ => s

/-- Modelled from the spec: addReaction registers a reaction, dispatching
it by kind, and fails (returning false and leaving the manager untouched)
when a participant species is unknown to the thermodynamic-state
collaborator (sections 4.3 and 7). Success invalidates the caches. -/
def addReaction (r : Reaction) (s : GasKinetics) : Bool × GasKinetics :=
  if (speciesOf r).all (fun k => decide (k < s.thermo.nSpecies)) then
    (true, invalidateCache (registerFalloff s.reactions.length r
      { s with reactions := s.reactions ++ [r], m_rfn := s.m_rfn ++ [0] }))
  else (false, s)

/-- Replacement of the falloff parameter tables at local slot j when a
falloff reaction is modified in place. -/
def replaceFalloff (j : Nat) (r : Reaction) (s : GasKinetics) : GasKinetics :=
  match r.rate with
  | .falloff low high e F =>
      { s with
        m_falloff_low_rates := s.m_falloff_low_rates.set j low
        m_falloff_high_rates := s.m_falloff_high_rates.set j high
        m_falloff_blend := s.m_falloff_blend.set j F
        m_falloff_concm := s.m_falloff_concm.set j e }
  | _ => s

/-- Modelled from the spec: modifyReaction replaces one registered
reaction's parameters in place without changing its index or kind, and
invalidates all caches (section 4.3). It fails when the index is unknown
or the kinds differ. -/
def modifyReaction (i : Nat) (rNew : Reaction) (s : GasKinetics) :
    Bool × GasKinetics :=
  match s.reactions.get? i with
  | none => (false, s)
  | some rOld =>
      if rNew.rate.kind = rOld.rate.kind then
        (true, invalidateCache (replaceFalloff (s.m_rfallindx i) rNew
          { s with reactions := s.reactions.set i rNew }))
      else (false, s)

/-- Change only the pressure seen through the thermodynamic collaborator. -/
def setPressure (p : ℝ) (s : GasKinetics) : GasKinetics :=
  { s with thermo := { s.thermo with P := p } }

/-- A freshly constructed manager: no reactions, caches at the sentinel. -/
def initMgr (th : ThermoState) : GasKinetics :=
  { thermo := th
    reactions := []
    m_fallindx := []
    m_rfallindx := fun _ => 0
    m_falloff_low_rates := []
    m_falloff_high_rates := []
    m_falloff_blend := []
    m_falloff_concm := []
    m_temp := none
    m_conc_state := none
    m_rfn := []
    m_rfn_low := []
    m_rfn_high := []
    falloff_work := []
    concm_falloff_values := [] }

/-- Register a whole list of reactions in order. -/
def addAll (rs : List Reaction) (s : GasKinetics) : GasKinetics :=
  rs.foldl (fun st r => (addReaction r st).2) s

/-- Mutual consistency of the falloff bookkeeping structures: every
recorded global index is a live reaction index, the reverse map inverts
the position map, and the low-limit, high-limit, blending, efficiency and
work tables all have one entry per falloff reaction. -/
def FalloffConsistent (s : GasKinetics) : Prop :=
  (∀ x ∈ s.m_fallindx, x < s.reactions.length) ∧
  (∀ j i, s.m_fallindx.get? j = some i → s.m_rfallindx i = j) ∧
  s.m_falloff_low_rates.length = s.m_fallindx.length ∧
  s.m_falloff_high_rates.length = s.m_fallindx.length ∧
  s.m_falloff_blend.length = s.m_fallindx.length ∧
  s.m_falloff_concm.length = s.m_fallindx.length ∧
  s.m_rfn_low.length = s.m_fallindx.length ∧
  s.m_rfn_high.length = s.m_fallindx.length ∧
  s.falloff_work.length = s.m_fallindx.length ∧
  s.concm_falloff_values.length = s.m_fallindx.length

/-- A one-species thermodynamic state used for concrete instantiations. -/
noncomputable def sampleThermo : ThermoState :=
  { T := 1000, P := 2, conc := [1], nSpecies := 1, mu0 := [0], standConc := 1 }

/-- An irreversible elementary reaction with A = 2, b = 0, Ea = 0. -/
noncomputable def sampleElem : Reaction :=
  { rate := RateLaw.elementary { A := 2, b := 0, Ea := 0 }
    reactants := [(0, 1)]
    products := [(0, 1)]
    reversible := false }

/-- A falloff reaction used for concrete instantiations. -/
noncomputable def sampleFall : Reaction :=
  { rate := RateLaw.falloff { A := 2, b := 0, Ea := 0 } { A := 3, b := 0, Ea := 0 }
      { eff := [], defaultEff := 1 } (fun _ _ => 1)
    reactants := [(0, 1)]
    products := [(0, 1)]
    reversible := true }

/-- A reaction referencing species 5, unknown to the one-species state. -/
noncomputable def sampleBad : Reaction :=
  { rate := RateLaw.elementary { A := 1, b := 0, Ea := 0 }
    reactants := [(5, 1)]
    products := [(0, 1)]
    reversible := false }

/-- Replacement parameters for the modify-then-query scenario. -/
noncomputable def sampleNew : Reaction :=
  { rate := RateLaw.elementary { A := 7, b := 1, Ea := 5 }
    reactants := [(0, 1)]
    products := [(0, 1)]
    reversible := false }

/-- Manager holding the one elementary reaction, caches at the sentinel. -/
noncomputable def sampleMgr : GasKinetics :=
  (addReaction sampleElem (initMgr sampleThermo)).2

/-- Manager holding the one falloff reaction, caches at the sentinel. -/
noncomputable def sampleMgrFall : GasKinetics :=
  (addReaction sampleFall (initMgr sampleThermo)).2

/-- Manager for the elementary reaction whose caches are marked fresh. -/
noncomputable def sampleWarm : GasKinetics :=
  { thermo := sampleThermo
    reactions := [sampleElem]
    m_fallindx := []
    m_rfallindx := fun _ => 0
    m_falloff_low_rates := []
    m_falloff_high_rates := []
    m_falloff_blend := []
    m_falloff_concm := []
    m_temp := some 1000
    m_conc_state := some (2, [1])
    m_rfn := [arrheniusRate { A := 2, b := 0, Ea := 0 } 1000]
    m_rfn_low := []
    m_rfn_high := []
    falloff_work := []
    concm_falloff_values := [] }

/-- Chebyshev validity bounds and a one-entry surface for concrete checks. -/
noncomputable def sampleCheb : ChebData :=
  { Tmin := 300, Tmax := 2000, Pmin := 1, Pmax := 10, coeffs := [[1]] }

theorem arrheniusRate_pos (p : ArrheniusParams) (T : ℝ) : 0 < arrheniusRate p T :=
  Real.exp_pos _

theorem clampR_mem (lo hi x : ℝ) (h : lo ≤ hi) :
    lo ≤ clampR lo hi x ∧ clampR lo hi x ≤ hi :=
  ⟨le_max_left _ _, max_le h (min_le_left _ _)⟩

theorem clampR_idem (lo hi x : ℝ) (h : lo ≤ hi) :
    clampR lo hi (clampR lo hi x) = clampR lo hi x := by
  have hmem := clampR_mem lo hi x h
  show max lo (min hi (clampR lo hi x)) = clampR lo hi x
  rw [min_eq_right hmem.2, max_eq_right hmem.1]

/-- A query below the first node of a Plog table clamps to the first node. -/
theorem plogRate_low (T P p1 : ℝ) (a1 : ArrheniusParams)
    (rest : List (ℝ × ArrheniusParams)) (h : P ≤ p1) :
    plogRate T P ((p1, a1) :: rest) = arrheniusRate a1 T := by
  cases rest with
  | nil => rfl
  | cons q rest' =>
    obtain ⟨p2, a2⟩ := q
    rw [plogRate, if_pos h]

/-- A query at a stored node pressure reproduces that node value exactly. -/
theorem plogRate_exact (T : ℝ) (pre : List (ℝ × ArrheniusParams)) :
    ∀ (p : ℝ) (a : ArrheniusParams) (post : List (ℝ × ArrheniusParams)),
    PlogSorted (pre ++ (p, a) :: post) →
    plogRate T p (pre ++ (p, a) :: post) = arrheniusRate a T := by
  induction pre with
  | nil =>
    intro p a post _
    exact plogRate_low T p p a post le_rfl
  | cons hd pre1 ih =>
    intro p a post hsort
    simp only [PlogSorted, List.cons_append, List.pairwise_cons] at hsort
    obtain ⟨hhd, hsort1⟩ := hsort
    have hhdp : hd.1 < p := hhd (p, a) (by simp)
    obtain ⟨q1, b1⟩ := hd
    rw [List.cons_append]
    cases hp : pre1 with
    | nil =>
      subst hp
      simp only [List.nil_append] at hsort1 ⊢
      rw [plogRate, if_neg (not_le.mpr hhdp), if_neg (lt_irrefl p)]
      exact plogRate_low T p p a post le_rfl
    | cons hd2 pre2 =>
      subst hp
      rw [List.cons_append] at hsort1
      have hhd2p : hd2.1 < p := (List.pairwise_cons.mp hsort1).1 (p, a) (by simp)
      obtain ⟨q2, b2⟩ := hd2
      rw [List.cons_append, plogRate,
        if_neg (not_le.mpr hhdp), if_neg (not_lt.mpr (le_of_lt hhd2p))]
      exact ih p a post hsort1

/-- The log-space Arrhenius evaluation agrees with the closed form
A * T^b * exp(-Ea/(R*T)) whenever A and T are positive. -/
theorem arrheniusRate_eq_closed_form (p : ArrheniusParams) (T : ℝ)
    (hT : 0 < T) (hA : 0 < p.A) :
    arrheniusRate p T = p.A * T ^ p.b * Real.exp (-(p.Ea) / (Rgas * T)) := by
  unfold arrheniusRate
  rw [sub_eq_add_neg, Real.exp_add, Real.exp_add, Real.exp_log hA,
    Real.rpow_def_of_pos hT, mul_comm (Real.log T) p.b, neg_div]

/-- A query above the last node of a Plog table clamps to the last node. -/
theorem plogRate_high (T P : ℝ) (pre : List (ℝ × ArrheniusParams)) :
    ∀ (pn : ℝ) (an : ArrheniusParams),
    PlogSorted (pre ++ [(pn, an)]) → pn ≤ P →
    plogRate T P (pre ++ [(pn, an)]) = arrheniusRate an T := by
  induction pre with
  | nil => intro pn an _ _; rfl
  | cons hd pre1 ih =>
    intro pn an hsort hP
    simp only [PlogSorted, List.cons_append, List.pairwise_cons] at hsort
    obtain ⟨hhd, hsort1⟩ := hsort
    have hhdp : hd.1 < pn := hhd (pn, an) (by simp)
    obtain ⟨q1, b1⟩ := hd
    rw [List.cons_append]
    cases hp : pre1 with
    | nil =>
      subst hp
      simp only [List.nil_append] at hsort1 ⊢
      rw [plogRate, if_neg (not_le.mpr (lt_of_lt_of_le hhdp hP)),
        if_neg (not_lt.mpr hP)]
      rfl
    | cons hd2 pre2 =>
      subst hp
      rw [List.cons_append] at hsort1
      have hhd2p : hd2.1 < pn := (List.pairwise_cons.mp hsort1).1 (pn, an) (by simp)
      obtain ⟨q2, b2⟩ := hd2
      rw [List.cons_append, plogRate,
        if_neg (not_le.mpr (lt_of_lt_of_le hhdp hP)),
        if_neg (not_lt.mpr (le_of_lt (lt_of_lt_of_le hhd2p hP)))]
      exact ih pn an hsort1 hP

/-- A query strictly between two adjacent Plog nodes takes the log-linear
interpolation branch. -/
theorem plogRate_between (T P : ℝ) (pre : List (ℝ × ArrheniusParams)) :
    ∀ (p1 : ℝ) (a1 : ArrheniusParams) (p2 : ℝ) (a2 : ArrheniusParams)
      (post : List (ℝ × ArrheniusParams)),
    PlogSorted (pre ++ (p1, a1) :: (p2, a2) :: post) → p1 < P → P < p2 →
    plogRate T P (pre ++ (p1, a1) :: (p2, a2) :: post) =
      Real.exp (Real.log (arrheniusRate a1 T) +
        (Real.log (arrheniusRate a2 T) - Real.log (arrheniusRate a1 T)) *
          (Real.log P - Real.log p1) / (Real.log p2 - Real.log p1)) := by
  induction pre with
  | nil =>
    intro p1 a1 p2 a2 post _ h1 h2
    rw [List.nil_append, plogRate, if_neg (not_le.mpr h1), if_pos h2]
  | cons hd pre1 ih =>
    intro p1 a1 p2 a2 post hsort h1 h2
    simp only [PlogSorted, List.cons_append, List.pairwise_cons] at hsort
    obtain ⟨hhd, hsort1⟩ := hsort
    have hhdp : hd.1 < p1 := hhd (p1, a1) (by simp)
    obtain ⟨q1, b1⟩ := hd
    rw [List.cons_append]
    cases hp : pre1 with
    | nil =>
      subst hp
      simp only [List.nil_append] at hsort1 ⊢
      rw [plogRate, if_neg (not_le.mpr (lt_trans hhdp h1)),
        if_neg (not_lt.mpr (le_of_lt h1)), plogRate,
        if_neg (not_le.mpr h1), if_pos h2]
    | cons hd2 pre2 =>
      subst hp
      rw [List.cons_append] at hsort1
      have hhd2p : hd2.1 < p1 := (List.pairwise_cons.mp hsort1).1 (p1, a1) (by simp)
      obtain ⟨q2, b2⟩ := hd2
      rw [List.cons_append, plogRate,
        if_neg (not_le.mpr (lt_trans hhdp h1)),
        if_neg (not_lt.mpr (le_of_lt (lt_trans hhd2p h1)))]
      exact ih p1 a1 p2 a2 post hsort1 h1 h2

theorem length_lt_of_get? {α : Type _} (l : List α) (i : Nat) (a : α)
    (h : l.get? i = some a) : i < l.length := by
  by_contra hn
  rw [List.get?_eq_none.mpr (Nat.le_of_not_lt hn)] at h
  cases h

theorem getElem_of_get? {α : Type _} (l : List α) (i : Nat) (a : α)
    (h : l.get? i = some a) (hi : i < l.length) : l[i] = a := by
  rw [List.get?_eq_getElem?, List.getElem?_eq_getElem hi] at h
  exact Option.some.inj h

theorem update_rates_T_noop (s : GasKinetics) (h : s.m_temp = some s.thermo.T) :
    update_rates_T s = (s, false) := by
  unfold update_rates_T
  rw [if_pos h]

theorem update_rates_C_noop (s : GasKinetics)
    (h : s.m_conc_state = some (s.thermo.P, s.thermo.conc)) :
    update_rates_C s = (s, false) := by
  unfold update_rates_C
  rw [if_pos h]

theorem update_rates_T_fields (s : GasKinetics) :
    (update_rates_T s).1.thermo = s.thermo ∧
    (update_rates_T s).1.reactions = s.reactions ∧
    (update_rates_T s).1.m_temp = some s.thermo.T ∧
    (update_rates_T s).1.m_conc_state = s.m_conc_state ∧
    (update_rates_T s).1.concm_falloff_values = s.concm_falloff_values := by
  unfold update_rates_T recomputeT
  split
  · rename_i h
    exact ⟨rfl, rfl, h, rfl, rfl⟩
  · exact ⟨rfl, rfl, rfl, rfl, rfl⟩

theorem update_rates_C_preserves (s : GasKinetics) :
    (update_rates_C s).1.thermo = s.thermo ∧
    (update_rates_C s).1.reactions = s.reactions ∧
    (update_rates_C s).1.m_temp = s.m_temp ∧
    (update_rates_C s).1.m_rfn_low = s.m_rfn_low ∧
    (update_rates_C s).1.m_rfn_high = s.m_rfn_high ∧
    (update_rates_C s).1.m_conc_state = some (s.thermo.P, s.thermo.conc) := by
  unfold update_rates_C recomputeC
  split
  · rename_i h
    exact ⟨rfl, rfl, rfl, rfl, rfl, h⟩
  · exact ⟨rfl, rfl, rfl, rfl, rfl, rfl⟩

theorem updateAll_fst (s : GasKinetics) :
    (updateAll s).1 = (update_rates_C (update_rates_T s).1).1 := rfl

theorem updateAll_fresh (s : GasKinetics) :
    (updateAll s).1.thermo = s.thermo ∧
    (updateAll s).1.reactions = s.reactions ∧
    (updateAll s).1.m_temp = some s.thermo.T ∧
    (updateAll s).1.m_conc_state = some (s.thermo.P, s.thermo.conc) := by
  have hT := update_rates_T_fields s
  have hC := update_rates_C_preserves (update_rates_T s).1
  rw [updateAll_fst]
  refine ⟨?_, ?_, ?_, ?_⟩
  · rw [hC.1, hT.1]
  · rw [hC.2.1, hT.2.1]
  · rw [hC.2.2.1, hT.2.2.1]
  · rw [hC.2.2.2.2.2, hT.1]

theorem updateAll_noop (s : GasKinetics) (h3 : s.m_temp = some s.thermo.T)
    (h4 : s.m_conc_state = some (s.thermo.P, s.thermo.conc)) :
    updateAll s = (s, false, false) := by
  unfold updateAll
  rw [update_rates_T_noop s h3]
  show ((update_rates_C s).1, false, (update_rates_C s).2) = (s, false, false)
  rw [update_rates_C_noop s h4]

theorem updateAll_idem (s : GasKinetics) :
    updateAll (updateAll s).1 = ((updateAll s).1, false, false) := by
  obtain ⟨h1, _, h3, h4⟩ := updateAll_fresh s
  exact updateAll_noop _ (by rw [h1]; exact h3) (by rw [h1]; exact h4)

theorem cRate_stable (T P : ℝ) (r : Reaction) (old : ℝ)
    (hp : r.rate.kind ≠ RxnKind.plog) (hc : r.rate.kind ≠ RxnKind.chebyshev) :
    cRate T P r old = old := by
  unfold cRate
  cases hr : r.rate with
  | plog nodes => exact absurd (by rw [hr]; rfl) hp
  | chebyshev d => exact absurd (by rw [hr]; rfl) hc
  | elementary p => rfl
  | thirdBody p e => rfl
  | falloff lo hi2 e F => rfl
  | blowersMasel p w => rfl

theorem getD_zipWith_cRate (T P : ℝ) :
    ∀ (rl : List Reaction) (rfn : List ℝ) (i : Nat) (r : Reaction),
    rl.get? i = some r →
    r.rate.kind ≠ RxnKind.plog → r.rate.kind ≠ RxnKind.chebyshev →
    (List.zipWith (cRate T P) rl rfn).getD i 0 = rfn.getD i 0 := by
  intro rl
  induction rl with
  | nil => intro rfn i r h _ _; simp at h
  | cons hd tl ih =>
    intro rfn i r hget hp hc
    cases rfn with
    | nil => simp
    | cons v vs =>
      cases i with
      | zero =>
        have hhd : hd = r := Option.some.inj (by simpa using hget)
        rw [← hhd] at hp hc
        show (cRate T P hd v :: List.zipWith (cRate T P) tl vs).getD 0 0 =
          (v :: vs).getD 0 0
        simp only [List.getD_cons_zero]
        exact cRate_stable T P hd v hp hc
      | succ n =>
        show (cRate T P hd v :: List.zipWith (cRate T P) tl vs).getD (n + 1) 0 =
          (v :: vs).getD (n + 1) 0
        simp only [List.getD_cons_succ]
        exact ih vs n r (by simpa using hget) hp hc

theorem update_rates_C_m_rfn_stable (s : GasKinetics) (i : Nat) (r : Reaction)
    (hget : s.reactions.get? i = some r)
    (hp : r.rate.kind ≠ RxnKind.plog) (hc : r.rate.kind ≠ RxnKind.chebyshev) :
    (update_rates_C s).1.m_rfn.getD i 0 = s.m_rfn.getD i 0 := by
  unfold update_rates_C
  split
  · rfl
  · exact getD_zipWith_cRate _ _ s.reactions s.m_rfn i r hget hp hc

theorem kfAt_eq_kfOf (s : GasKinetics) (i : Nat) (r : Reaction)
    (hget : s.reactions.get? i = some r) : kfAt s i = kfOf s i r := by
  unfold kfAt
  rw [hget]

theorem kfOf_nonfalloff (s : GasKinetics) (i : Nat) (r : Reaction)
    (hk : r.rate.kind ≠ RxnKind.falloff) :
    kfOf s i r = s.m_rfn.getD i 0 := by
  unfold kfOf
  cases hr : r.rate with
  | falloff lo hi2 e F => exact absurd (by rw [hr]; rfl) hk
  | elementary p => rfl
  | thirdBody p e => rfl
  | plog nodes => rfl
  | chebyshev d => rfl
  | blowersMasel p w => rfl

theorem assembleKf_getD (s : GasKinetics) (i : Nat) (h : i < s.reactions.length) :
    (assembleKf s).getD i 0 = kfAt s i := by
  unfold assembleKf
  have hlen : i < ((List.range s.reactions.length).map (kfAt s)).length := by
    simpa using h
  rw [List.getD_eq_getElem _ _ hlen, List.getElem_map, List.getElem_range]

theorem tempRate_getD (T : ℝ) (rl : List Reaction) (i : Nat) (r : Reaction)
    (hget : rl.get? i = some r) :
    (rl.map (tempRate T)).getD i 0 = tempRate T r := by
  have hi : i < rl.length := length_lt_of_get? rl i r hget
  have hlen : i < (rl.map (tempRate T)).length := by simpa using hi
  rw [List.getD_eq_getElem _ _ hlen, List.getElem_map, getElem_of_get? rl i r hget hi]

/-- Log-linear interpolation with a coefficient strictly inside (0,1) lands
strictly between the two endpoint values when those values differ. -/
theorem exp_interp_strictlyBetween (x1 x2 t : ℝ) (ht0 : 0 < t) (ht1 : t < 1)
    (hne : x1 ≠ x2) :
    strictlyBetween (Real.exp x1) (Real.exp x2) (Real.exp (x1 + (x2 - x1) * t)) := by
  rcases lt_or_gt_of_ne hne with h | h
  · left
    constructor
    · exact Real.exp_lt_exp.mpr (by nlinarith)
    · exact Real.exp_lt_exp.mpr (by nlinarith)
  · right
    constructor
    · exact Real.exp_lt_exp.mpr (by nlinarith)
    · exact Real.exp_lt_exp.mpr (by nlinarith)

theorem getD_range_map (f : Nat → ℝ) (n i : Nat) (h : i < n) :
    ((List.range n).map f).getD i 0 = f i := by
  have hlen : i < ((List.range n).map f).length := by simpa using h
  rw [List.getD_eq_getElem _ _ hlen, List.getElem_map, List.getElem_range]

theorem roprAt_eq (s : GasKinetics) (i : Nat) (r : Reaction)
    (hget : s.reactions.get? i = some r) : roprAt s i = roprOf s i r := by
  unfold roprAt
  rw [hget]

theorem roprOf_irreversible (s : GasKinetics) (i : Nat) (r : Reaction)
    (hrev : r.reversible = false) : roprOf s i r = 0 := by
  unfold roprOf
  rw [hrev]
  simp

theorem elementary_kind_ne_plog (r : Reaction) (q : ArrheniusParams)
    (hrate : r.rate = RateLaw.elementary q) : r.rate.kind ≠ RxnKind.plog := by
  rw [hrate]
  intro h
  simp [RateLaw.kind] at h

theorem elementary_kind_ne_cheb (r : Reaction) (q : ArrheniusParams)
    (hrate : r.rate = RateLaw.elementary q) : r.rate.kind ≠ RxnKind.chebyshev := by
  rw [hrate]
  intro h
  simp [RateLaw.kind] at h

theorem elementary_kind_ne_falloff (r : Reaction) (q : ArrheniusParams)
    (hrate : r.rate = RateLaw.elementary q) : r.rate.kind ≠ RxnKind.falloff := by
  rw [hrate]
  intro h
  simp [RateLaw.kind] at h

theorem updateAll_stale (s : GasKinetics) (h1 : s.m_temp = none)
    (h2 : s.m_conc_state = none) :
    updateAll s = (recomputeC (recomputeT s), true, true) := by
  have hT : update_rates_T s = (recomputeT s, true) := by
    unfold update_rates_T
    rw [if_neg (by rw [h1]; exact fun h => Option.noConfusion h)]
  have hC : update_rates_C (recomputeT s) = (recomputeC (recomputeT s), true) := by
    have hcond : ¬ ((recomputeT s).m_conc_state =
        some ((recomputeT s).thermo.P, (recomputeT s).thermo.conc)) := by
      show ¬ (s.m_conc_state =
        some ((recomputeT s).thermo.P, (recomputeT s).thermo.conc))
      rw [h2]
      exact fun h => Option.noConfusion h
    unfold update_rates_C
    rw [if_neg hcond]
  unfold updateAll
  rw [hT]
  show ((update_rates_C (recomputeT s)).1, true,
    (update_rates_C (recomputeT s)).2) = _
  rw [hC]

/-- C2: for every falloff reaction the effective rate constant is read
through falloffRate applied to the cached low limit k0, high limit kinf,
effective third-body concentration M and blending function; when kinf is
numerically zero falloffRate takes the low-pressure-limited branch k0 * M,
otherwise it evaluates kinf * (Pr/(1+Pr)) * F Pr T with Pr = k0*M/kinf,
whose denominator 1 + Pr is strictly positive for physical inputs
(k0*M at least 0, kinf positive), so the division defining Pr is guarded
and never evaluates 0/0 or divides by zero. -/
theorem falloff_guarded (s : GasKinetics) (i : Nat) (r : Reaction)
    (low high : ArrheniusParams) (e : Efficiencies) (F : ℝ → ℝ → ℝ)
    (hget : s.reactions.get? i = some r)
    (hrate : r.rate = RateLaw.falloff low high e F) :
    (kfAt s i = falloffRate (s.m_rfn_low.getD (s.m_rfallindx i) 0)
        (s.m_rfn_high.getD (s.m_rfallindx i) 0)
        (s.concm_falloff_values.getD (s.m_rfallindx i) 0)
        (s.m_falloff_blend.getD (s.m_rfallindx i) (fun _ _ => 1)) s.thermo.T) ∧
    (∀ k0 kinf M F' T, kinf = 0 → falloffRate k0 kinf M F' T = k0 * M) ∧
    (∀ k0 kinf M F' T, kinf ≠ 0 → falloffRate k0 kinf M F' T =
      kinf * ((k0 * M / kinf) / (1 + k0 * M / kinf)) * F' (k0 * M / kinf) T) ∧
    (∀ k0 kinf M : ℝ, 0 ≤ k0 * M → 0 < kinf → 0 < 1 + k0 * M / kinf) := by
  refine ⟨?_, ?_, ?_, ?_⟩
  · rw [kfAt_eq_kfOf s i r hget]
    unfold kfOf
    rw [hrate]
  · intro k0 kinf M F' T h
    unfold falloffRate
    rw [if_pos h]
  · intro k0 kinf M F' T h
    unfold falloffRate
    rw [if_neg h]
  · intro k0 kinf M h0 h1
    have hPr : 0 ≤ k0 * M / kinf := div_nonneg h0 (le_of_lt h1)
    linarith

/-- C3 (counterexample to strictness as claimed): a Plog table whose two
nodes carry identical Arrhenius parameters; the query between the nodes
returns exactly the common node value, which is not strictly between the
two (equal) node values. -/
theorem plog_equal_nodes_counterexample :
    plogRate 1 2 [(1, ⟨1, 0, 0⟩), (4, ⟨1, 0, 0⟩)] =
      arrheniusRate ⟨1, 0, 0⟩ 1 ∧
    ¬ strictlyBetween (arrheniusRate ⟨1, 0, 0⟩ 1) (arrheniusRate ⟨1, 0, 0⟩ 1)
      (plogRate 1 2 [(1, ⟨1, 0, 0⟩), (4, ⟨1, 0, 0⟩)]) := by
  have h1 : plogRate 1 2 [(1, (⟨1, 0, 0⟩ : ArrheniusParams)), (4, ⟨1, 0, 0⟩)] =
      arrheniusRate ⟨1, 0, 0⟩ 1 := by
    rw [plogRate, if_neg (by norm_num), if_pos (by norm_num), sub_self,
      zero_mul, zero_div, add_zero, Real.exp_log (arrheniusRate_pos _ _)]
  refine ⟨h1, ?_⟩
  intro hsb
  rcases hsb with ⟨ha, hb⟩ | ⟨ha, hb⟩ <;> exact absurd (lt_trans ha hb) (lt_irrefl _)

/-- C3 (amended): a Plog query at a stored node pressure reproduces that
node value exactly, and a query strictly between two adjacent nodes yields
a value strictly between the two node values whenever those values differ;
in the degenerate case of equal node values the interpolant equals the
common value, so the originally claimed strictness fails only there. -/
theorem plog_exact_and_strict_interp (T P : ℝ)
    (nodes : List (ℝ × ArrheniusParams)) (hsort : PlogSorted nodes)
    (hpos : ∀ q ∈ nodes, 0 < q.1) :
    (∀ pre p a post, nodes = pre ++ (p, a) :: post →
      plogRate T p nodes = arrheniusRate a T) ∧
    (∀ pre p1 a1 p2 a2 post,
      nodes = pre ++ (p1, a1) :: (p2, a2) :: post →
      p1 < P → P < p2 →
      arrheniusRate a1 T ≠ arrheniusRate a2 T →
      strictlyBetween (arrheniusRate a1 T) (arrheniusRate a2 T)
        (plogRate T P nodes)) := by
  constructor
  · intro pre p a post hn
    subst hn
    exact plogRate_exact T pre p a post hsort
  · intro pre p1 a1 p2 a2 post hn h1 h2 hne
    subst hn
    rw [plogRate_between T P pre p1 a1 p2 a2 post hsort h1 h2]
    have hp1 : 0 < p1 := hpos (p1, a1) (by simp)
    have hP : 0 < P := lt_trans hp1 h1
    have hlog12 : Real.log p1 < Real.log p2 :=
      Real.log_lt_log hp1 (lt_trans h1 h2)
    have ht0 : 0 < (Real.log P - Real.log p1) / (Real.log p2 - Real.log p1) :=
      div_pos (sub_pos.mpr (Real.log_lt_log hp1 h1)) (sub_pos.mpr hlog12)
    have ht1 : (Real.log P - Real.log p1) / (Real.log p2 - Real.log p1) < 1 := by
      rw [div_lt_one (sub_pos.mpr hlog12)]
      have := Real.log_lt_log hP h2
      linarith
    have hmain := exp_interp_strictlyBetween
      (Real.log a1.A + a1.b * Real.log T - a1.Ea / (Rgas * T))
      (Real.log a2.A + a2.b * Real.log T - a2.Ea / (Rgas * T))
      ((Real.log P - Real.log p1) / (Real.log p2 - Real.log p1)) ht0 ht1
      (fun h => hne (by unfold arrheniusRate; rw [h]))
    simp only [arrheniusRate, Real.log_exp, mul_div_assoc]
    exact hmain

/-- C4: out-of-range inputs clamp. For Plog, a query pressure at or below
the first node yields the first node value and a query at or above the
last node yields the last node value; for Chebyshev, any query equals the
query at the clamped point, which lies inside the declared bounds. In this
real-number model every rate is a well-defined real number, so no
out-of-range query yields NaN, unbounded extrapolation, or a failure. -/
theorem out_of_range_clamps (T P : ℝ) :
    (∀ (p1 : ℝ) (a1 : ArrheniusParams) (rest : List (ℝ × ArrheniusParams)),
      P ≤ p1 → plogRate T P ((p1, a1) :: rest) = arrheniusRate a1 T) ∧
    (∀ (pre : List (ℝ × ArrheniusParams)) (pn : ℝ) (an : ArrheniusParams),
      PlogSorted (pre ++ [(pn, an)]) → pn ≤ P →
      plogRate T P (pre ++ [(pn, an)]) = arrheniusRate an T) ∧
    (∀ d : ChebData, d.Tmin ≤ d.Tmax → d.Pmin ≤ d.Pmax →
      chebRate d T P =
        chebRate d (clampR d.Tmin d.Tmax T) (clampR d.Pmin d.Pmax P) ∧
      d.Tmin ≤ clampR d.Tmin d.Tmax T ∧ clampR d.Tmin d.Tmax T ≤ d.Tmax ∧
      d.Pmin ≤ clampR d.Pmin d.Pmax P ∧ clampR d.Pmin d.Pmax P ≤ d.Pmax) := by
  refine ⟨plogRate_low T P, plogRate_high T P, ?_⟩
  intro d hT hP
  refine ⟨?_, (clampR_mem _ _ T hT).1, (clampR_mem _ _ T hT).2,
    (clampR_mem _ _ P hP).1, (clampR_mem _ _ P hP).2⟩
  unfold chebRate
  rw [clampR_idem _ _ T hT, clampR_idem _ _ P hP]

/-- C1: for every reaction governed by the simple Arrhenius law and every
temperature T > 0, the forward rate constant returned by
getFwdRateConstants after the update pipeline ran equals
A * T^b * exp(-Ea/(R*T)) for the stored parameters of the reaction,
including the edge cases b = 0 and Ea = 0 (the statement covers all real
b and Ea, and A > 0 as the log-space evaluation requires). -/
theorem getFwd_arrhenius_closed_form (s : GasKinetics) (i : Nat) (r : Reaction)
    (q : ArrheniusParams) (hstale : s.m_temp = none)
    (hget : s.reactions.get? i = some r) (hrate : r.rate = RateLaw.elementary q)
    (hT : 0 < s.thermo.T) (hA : 0 < q.A) :
    (getFwdRateConstants s).1.getD i 0 =
      q.A * s.thermo.T ^ q.b * Real.exp (-(q.Ea) / (Rgas * s.thermo.T)) := by
  have hfresh := updateAll_fresh s
  show (assembleKf (updateAll s).1).getD i 0 = _
  set st := (updateAll s).1 with hst
  have hre : st.reactions = s.reactions := hfresh.2.1
  have hget' : st.reactions.get? i = some r := by rw [hre]; exact hget
  have hi : i < st.reactions.length := length_lt_of_get? _ _ _ hget'
  rw [assembleKf_getD st i hi, kfAt_eq_kfOf st i r hget',
    kfOf_nonfalloff st i r (elementary_kind_ne_falloff r q hrate)]
  have hTstale : update_rates_T s = (recomputeT s, true) := by
    unfold update_rates_T
    rw [if_neg (by rw [hstale]; exact fun h => Option.noConfusion h)]
  have hstC : st = (update_rates_C (recomputeT s)).1 := by
    rw [hst, updateAll_fst, hTstale]
  have hrmid : (recomputeT s).m_rfn.getD i 0 = arrheniusRate q s.thermo.T := by
    show ((s.reactions.map (tempRate s.thermo.T))).getD i 0 = _
    rw [tempRate_getD s.thermo.T s.reactions i r hget]
    unfold tempRate
    rw [hrate]
  have hstable : st.m_rfn.getD i 0 = (recomputeT s).m_rfn.getD i 0 := by
    rw [hstC]
    exact update_rates_C_m_rfn_stable (recomputeT s) i r hget
      (elementary_kind_ne_plog r q hrate) (elementary_kind_ne_cheb r q hrate)
  rw [hstable, hrmid]
  exact arrheniusRate_eq_closed_form q s.thermo.T hT hA

/-- C5: calling any of the rate-query operations (getFwdRateConstants,
updateROP, getEquilibriumConstants) twice with no intervening change of
temperature, pressure, composition or mechanism returns identical values
both times, and the second call performs no recompute pass (both recompute
flags are false). -/
theorem query_twice_no_recompute (s : GasKinetics) :
    ((getFwdRateConstants (getFwdRateConstants s).2.1).1 =
        (getFwdRateConstants s).1 ∧
      (getFwdRateConstants (getFwdRateConstants s).2.1).2.2 = (false, false)) ∧
    ((updateROP (updateROP s).2.1).1 = (updateROP s).1 ∧
      (updateROP (updateROP s).2.1).2.2 = (false, false)) ∧
    ((getEquilibriumConstants (getEquilibriumConstants s).2.1).1 =
        (getEquilibriumConstants s).1 ∧
      (getEquilibriumConstants (getEquilibriumConstants s).2.1).2.2 =
        (false, false)) := by
  have hid := updateAll_idem s
  refine ⟨⟨?_, ?_⟩, ⟨?_, ?_⟩, ⟨?_, ?_⟩⟩
  · show assembleKf (updateAll (updateAll s).1).1 = assembleKf (updateAll s).1
    rw [hid]
  · show (updateAll (updateAll s).1).2 = (false, false)
    rw [hid]
  · show ((List.range (updateAll (updateAll s).1).1.reactions.length).map
        (ropfAt (updateAll (updateAll s).1).1),
      (List.range (updateAll (updateAll s).1).1.reactions.length).map
        (roprAt (updateAll (updateAll s).1).1)) =
      ((List.range (updateAll s).1.reactions.length).map
        (ropfAt (updateAll s).1),
      (List.range (updateAll s).1.reactions.length).map
        (roprAt (updateAll s).1))
    rw [hid]
  · show (updateAll (updateAll s).1).2 = (false, false)
    rw [hid]
  · show (updateAll (updateAll s).1).1.reactions.map
        (equilibriumConstant (updateAll (updateAll s).1).1.thermo) =
      (updateAll s).1.reactions.map (equilibriumConstant (updateAll s).1.thermo)
    rw [hid]
  · show (updateAll (updateAll s).1).2 = (false, false)
    rw [hid]

/-- C6: if only the pressure changes between two rate queries, the
concentration-dependent caches are invalidated and recomputed while every
temperature-dependent cached quantity (the falloff low and high limit
vectors, and the `m_rfn` entry of every plain-Arrhenius reaction) is left
unchanged; moreover update_rates_T is a no-op whenever the current
temperature equals the cached last-seen temperature. -/
theorem pressure_only_frame (s : GasKinetics) (p : ℝ) :
    (s.m_temp = some s.thermo.T → update_rates_T s = (s, false)) ∧
    (s.m_temp = some s.thermo.T →
      (updateAll (setPressure p s)).2.1 = false ∧
      (updateAll (setPressure p s)).1.m_rfn_low = s.m_rfn_low ∧
      (updateAll (setPressure p s)).1.m_rfn_high = s.m_rfn_high ∧
      (∀ i r q, s.reactions.get? i = some r → r.rate = RateLaw.elementary q →
        (updateAll (setPressure p s)).1.m_rfn.getD i 0 = s.m_rfn.getD i 0) ∧
      (s.m_conc_state = some (s.thermo.P, s.thermo.conc) → p ≠ s.thermo.P →
        (updateAll (setPressure p s)).2.2 = true ∧
        (updateAll (setPressure p s)).1.m_conc_state =
          some (p, s.thermo.conc))) := by
  constructor
  · exact update_rates_T_noop s
  · intro hT
    have hT' : (setPressure p s).m_temp = some (setPressure p s).thermo.T := hT
    have hnoopT : update_rates_T (setPressure p s) = (setPressure p s, false) :=
      update_rates_T_noop _ hT'
    have hA : updateAll (setPressure p s) =
        ((update_rates_C (setPressure p s)).1, false,
          (update_rates_C (setPressure p s)).2) := by
      unfold updateAll
      rw [hnoopT]
    rw [hA]
    refine ⟨rfl, ?_, ?_, ?_, ?_⟩
    · exact (update_rates_C_preserves _).2.2.2.1
    · exact (update_rates_C_preserves _).2.2.2.2.1
    · intro i r q hget hrate
      exact update_rates_C_m_rfn_stable (setPressure p s) i r hget
        (elementary_kind_ne_plog r q hrate) (elementary_kind_ne_cheb r q hrate)
    · intro hC hne
      have hcond : ¬ ((setPressure p s).m_conc_state =
          some ((setPressure p s).thermo.P, (setPressure p s).thermo.conc)) := by
        show ¬ (s.m_conc_state = some (p, s.thermo.conc))
        rw [hC]
        intro h
        exact hne (congrArg Prod.fst (Option.some.inj h)).symm
      have hrec : update_rates_C (setPressure p s) =
          (recomputeC (setPressure p s), true) := by
        unfold update_rates_C
        rw [if_neg hcond]
      rw [hrec]
      exact ⟨rfl, rfl⟩

/-- C7: for every reaction flagged irreversible, the reverse rate of
progress produced by updateROP is exactly zero for every composition,
temperature and pressure; it is never derived from the equilibrium
constant. -/
theorem updateROP_irreversible_zero (s : GasKinetics) (i : Nat) (r : Reaction)
    (hget : s.reactions.get? i = some r) (hrev : r.reversible = false) :
    (updateROP s).1.2.getD i 0 = 0 := by
  have hre : (updateAll s).1.reactions = s.reactions := (updateAll_fresh s).2.1
  have hget' : (updateAll s).1.reactions.get? i = some r := by
    rw [hre]; exact hget
  have hi : i < (updateAll s).1.reactions.length := length_lt_of_get? _ _ _ hget'
  show ((List.range (updateAll s).1.reactions.length).map
      (roprAt (updateAll s).1)).getD i 0 = 0
  rw [getD_range_map _ _ i hi, roprAt_eq _ i r hget',
    roprOf_irreversible _ i r hrev]

theorem replaceFalloff_reactions (j : Nat) (r : Reaction) (s : GasKinetics) :
    (replaceFalloff j r s).reactions = s.reactions := by
  unfold replaceFalloff
  cases hr : r.rate <;> rfl

/-- C8: when the new reaction has the same kinetic-law kind,
modifyReaction succeeds, replaces only the targeted reaction (all other
indices unchanged, the list length and hence every index preserved),
resets both cache sentinels, and the rate-constant query issued
immediately afterwards is assembled from a full recompute over the new
reaction list, never from a value cached before the modification. -/
theorem modifyReaction_replaces_and_invalidates (s : GasKinetics) (i : Nat)
    (rNew rOld : Reaction) (hget : s.reactions.get? i = some rOld)
    (hkind : rNew.rate.kind = rOld.rate.kind) :
    (modifyReaction i rNew s).1 = true ∧
    (modifyReaction i rNew s).2.reactions.get? i = some rNew ∧
    (∀ j, j ≠ i → (modifyReaction i rNew s).2.reactions.get? j =
      s.reactions.get? j) ∧
    (modifyReaction i rNew s).2.reactions.length = s.reactions.length ∧
    (modifyReaction i rNew s).2.m_temp = none ∧
    (modifyReaction i rNew s).2.m_conc_state = none ∧
    (getFwdRateConstants (modifyReaction i rNew s).2).1 =
      assembleKf (recomputeC (recomputeT (modifyReaction i rNew s).2)) := by
  have hmod : modifyReaction i rNew s = (true, invalidateCache
      (replaceFalloff (s.m_rfallindx i) rNew
        { s with reactions := s.reactions.set i rNew })) := by
    unfold modifyReaction
    rw [hget]
    show (if rNew.rate.kind = rOld.rate.kind then (true, invalidateCache
        (replaceFalloff (s.m_rfallindx i) rNew
          { s with reactions := s.reactions.set i rNew }))
      else (false, s)) = _
    rw [if_pos hkind]
  rw [hmod]
  have hre : (invalidateCache (replaceFalloff (s.m_rfallindx i) rNew
      { s with reactions := s.reactions.set i rNew })).reactions =
      s.reactions.set i rNew := by
    show (replaceFalloff (s.m_rfallindx i) rNew
      { s with reactions := s.reactions.set i rNew }).reactions = _
    rw [replaceFalloff_reactions]
  refine ⟨rfl, ?_, ?_, ?_, rfl, rfl, ?_⟩
  · show (invalidateCache _).reactions.get? i = some rNew
    rw [hre, List.get?_set_eq, hget]
    rfl
  · intro j hj
    show (invalidateCache _).reactions.get? j = _
    rw [hre, List.get?_set_ne rNew s.reactions (Ne.symm hj)]
  · show (invalidateCache _).reactions.length = _
    rw [hre, List.length_set]
  · show assembleKf (updateAll (invalidateCache _)).1 = _
    rw [updateAll_stale _ rfl rfl]

/-- C9: addReaction reports failure whenever the candidate reaction
references a species index unknown to the thermodynamic-state
collaborator, and on that failure the returned manager state is exactly
the state before the call, so every previously registered reaction and
all rate data stay intact and the manager remains usable. -/
theorem addReaction_unknown_species (s : GasKinetics) (r : Reaction) (k : Nat)
    (hk : k ∈ speciesOf r) (hbad : ¬ k < s.thermo.nSpecies) :
    addReaction r s = (false, s) := by
  unfold addReaction
  rw [if_neg ?hcond]
  case hcond =>
    intro hall
    rw [List.all_eq_true] at hall
    exact hbad (of_decide_eq_true (hall k hk))

theorem falloffConsistent_invalidate (s : GasKinetics)
    (h : FalloffConsistent s) : FalloffConsistent (invalidateCache s) := h

theorem falloffConsistent_register (r : Reaction) (s : GasKinetics)
    (h : FalloffConsistent s) :
    FalloffConsistent (registerFalloff s.reactions.length r
      { s with reactions := s.reactions ++ [r], m_rfn := s.m_rfn ++ [0] }) := by
  obtain ⟨hlt, hinv, hl1, hl2, hl3, hl4, hl5, hl6, hl7, hl8⟩ := h
  unfold registerFalloff
  cases hr : r.rate with
  | falloff lo hi e F =>
    refine ⟨?_, ?_, ?_, ?_, ?_, ?_, ?_, ?_, ?_, ?_⟩
    · intro x hx
      show x < (s.reactions ++ [r]).length
      rw [List.mem_append] at hx
      rw [List.length_append]
      rcases hx with hx | hx
      · exact Nat.lt_succ_of_lt (hlt x hx)
      · simp only [List.mem_singleton] at hx
        subst hx
        simp
    · intro j i hj
      show (if i = s.reactions.length then s.m_fallindx.length
        else s.m_rfallindx i) = j
      rcases Nat.lt_or_ge j s.m_fallindx.length with hlt2 | hge
      · rw [List.get?_append hlt2] at hj
        have hmem : i ∈ s.m_fallindx := List.mem_iff_get?.mpr ⟨j, hj⟩
        rw [if_neg (Nat.ne_of_lt (hlt i hmem))]
        exact hinv j i hj
      · rw [List.get?_append_right hge] at hj
        cases hd : j - s.m_fallindx.length with
        | zero =>
          rw [hd] at hj
          simp only [List.get?] at hj
          injection hj with hj
          subst hj
          rw [if_pos rfl]
          omega
        | succ m =>
          rw [hd] at hj
          simp at hj
    · show (s.m_falloff_low_rates ++ [lo]).length = (s.m_fallindx ++ _).length
      simp [hl1]
    · show (s.m_falloff_high_rates ++ [hi]).length = (s.m_fallindx ++ _).length
      simp [hl2]
    · show (s.m_falloff_blend ++ [F]).length = (s.m_fallindx ++ _).length
      simp [hl3]
    · show (s.m_falloff_concm ++ [e]).length = (s.m_fallindx ++ _).length
      simp [hl4]
    · show (s.m_rfn_low ++ [0]).length = (s.m_fallindx ++ _).length
      simp [hl5]
    · show (s.m_rfn_high ++ [0]).length = (s.m_fallindx ++ _).length
      simp [hl6]
    · show (s.falloff_work ++ [0]).length = (s.m_fallindx ++ _).length
      simp [hl7]
    · show (s.concm_falloff_values ++ [0]).length = (s.m_fallindx ++ _).length
      simp [hl8]
  | elementary p =>
    exact ⟨fun x hx => by
      show x < (s.reactions ++ [r]).length
      rw [List.length_append]
      exact Nat.lt_succ_of_lt (hlt x hx),
      hinv, hl1, hl2, hl3, hl4, hl5, hl6, hl7, hl8⟩
  | thirdBody p e =>
    exact ⟨fun x hx => by
      show x < (s.reactions ++ [r]).length
      rw [List.length_append]
      exact Nat.lt_succ_of_lt (hlt x hx),
      hinv, hl1, hl2, hl3, hl4, hl5, hl6, hl7, hl8⟩
  | plog nodes =>
    exact ⟨fun x hx => by
      show x < (s.reactions ++ [r]).length
      rw [List.length_append]
      exact Nat.lt_succ_of_lt (hlt x hx),
      hinv, hl1, hl2, hl3, hl4, hl5, hl6, hl7, hl8⟩
  | chebyshev d =>
    exact ⟨fun x hx => by
      show x < (s.reactions ++ [r]).length
      rw [List.length_append]
      exact Nat.lt_succ_of_lt (hlt x hx),
      hinv, hl1, hl2, hl3, hl4, hl5, hl6, hl7, hl8⟩
  | blowersMasel p w =>
    exact ⟨fun x hx => by
      show x < (s.reactions ++ [r]).length
      rw [List.length_append]
      exact Nat.lt_succ_of_lt (hlt x hx),
      hinv, hl1, hl2, hl3, hl4, hl5, hl6, hl7, hl8⟩

theorem addReaction_preserves_falloffConsistent (r : Reaction) (s : GasKinetics)
    (h : FalloffConsistent s) : FalloffConsistent (addReaction r s).2 := by
  unfold addReaction
  split
  · exact falloffConsistent_invalidate _ (falloffConsistent_register r s h)
  · exact h

theorem initMgr_falloffConsistent (th : ThermoState) :
    FalloffConsistent (initMgr th) := by
  refine ⟨?_, ?_, rfl, rfl, rfl, rfl, rfl, rfl, rfl, rfl⟩
  · intro x hx
    cases hx
  · intro j i hj
    simp [initMgr] at hj

theorem addAll_preserves (rs : List Reaction) :
    ∀ s, FalloffConsistent s → FalloffConsistent (addAll rs s) := by
  induction rs with
  | nil => intro s h; exact h
  | cons r rest ih =>
    intro s h
    show FalloffConsistent (addAll rest (addReaction r s).2)
    exact ih _ (addReaction_preserves_falloffConsistent r s h)

/-- C10: after every sequence of addReaction calls on a fresh manager, the
falloff bookkeeping structures are mutually consistent: m_rfallindx
inverts the position of every entry of m_fallindx (so
m_fallindx[m_rfallindx i] = i for every registered falloff index i), and
the low-limit, high-limit, blending, efficiency and per-falloff work
vectors all hold exactly one entry per falloff reaction. -/
theorem addAll_falloff_bookkeeping (th : ThermoState) (rs : List Reaction) :
    FalloffConsistent (addAll rs (initMgr th)) ∧
    ∀ i ∈ (addAll rs (initMgr th)).m_fallindx,
      (addAll rs (initMgr th)).m_fallindx.get?
        ((addAll rs (initMgr th)).m_rfallindx i) = some i := by
  have hcons := addAll_preserves rs (initMgr th) (initMgr_falloffConsistent th)
  refine ⟨hcons, ?_⟩
  intro i hi
  obtain ⟨j, hj⟩ := List.mem_iff_get?.mp hi
  rw [hcons.2.1 j i hj]
  exact hj

theorem sampleNodes_sorted :
    PlogSorted [(1, ⟨1, 0, 0⟩), (4, ⟨2, 0, 0⟩)] := by
  unfold PlogSorted
  refine List.Pairwise.cons ?_ ?_
  · intro q hq
    simp only [List.mem_singleton] at hq
    subst hq
    show (1 : ℝ) < 4
    norm_num
  · exact List.Pairwise.cons (fun q hq => by cases hq) List.Pairwise.nil

theorem sampleNodes_pos :
    ∀ q ∈ [((1 : ℝ), (⟨1, 0, 0⟩ : ArrheniusParams)), (4, ⟨2, 0, 0⟩)], 0 < q.1 := by
  intro q hq
  simp only [List.mem_cons, List.mem_singleton, List.not_mem_nil, or_false] at hq
  rcases hq with hq | hq <;> subst hq <;> norm_num

theorem sampleArr1_eq : arrheniusRate ⟨1, 0, 0⟩ 1 = 1 := by
  show Real.exp (Real.log 1 + 0 * Real.log 1 - 0 / (Rgas * 1)) = 1
  simp

theorem sampleArr2_eq : arrheniusRate ⟨2, 0, 0⟩ 1 = 2 := by
  show Real.exp (Real.log 2 + 0 * Real.log 1 - 0 / (Rgas * 1)) = 2
  have h : Real.log 2 + 0 * Real.log 1 - 0 / (Rgas * 1) = Real.log 2 := by simp
  rw [h, Real.exp_log (by norm_num)]

/-- Witness for C1 at the concrete one-reaction manager. -/
theorem getFwd_arrhenius_closed_form_witness :
    (getFwdRateConstants sampleMgr).1.getD 0 0 =
      2 * (1000 : ℝ) ^ (0 : ℝ) * Real.exp (-(0 : ℝ) / (Rgas * 1000)) :=
  getFwd_arrhenius_closed_form sampleMgr 0 sampleElem
    { A := 2, b := 0, Ea := 0 } rfl rfl rfl
    (show (0 : ℝ) < 1000 by norm_num) (show (0 : ℝ) < 2 by norm_num)

/-- Witness for C2 at the concrete one-falloff-reaction manager. -/
theorem falloff_guarded_witness :
    kfAt sampleMgrFall 0 = falloffRate
      (sampleMgrFall.m_rfn_low.getD (sampleMgrFall.m_rfallindx 0) 0)
      (sampleMgrFall.m_rfn_high.getD (sampleMgrFall.m_rfallindx 0) 0)
      (sampleMgrFall.concm_falloff_values.getD (sampleMgrFall.m_rfallindx 0) 0)
      (sampleMgrFall.m_falloff_blend.getD (sampleMgrFall.m_rfallindx 0)
        (fun _ _ => 1)) sampleMgrFall.thermo.T ∧
    falloffRate 5 0 3 (fun _ _ => 1) 1000 = 5 * 3 ∧
    falloffRate 5 2 3 (fun _ _ => 1) 1000 =
      2 * ((5 * 3 / 2) / (1 + 5 * 3 / 2)) * 1 ∧
    (0 : ℝ) < 1 + 5 * 3 / 2 := by
  have h := falloff_guarded sampleMgrFall 0 sampleFall
    { A := 2, b := 0, Ea := 0 } { A := 3, b := 0, Ea := 0 }
    { eff := [], defaultEff := 1 } (fun _ _ => 1) rfl rfl
  exact ⟨h.1, h.2.1 5 0 3 (fun _ _ => 1) 1000 rfl,
    h.2.2.1 5 2 3 (fun _ _ => 1) 1000 (by norm_num),
    h.2.2.2 5 2 3 (by norm_num) (by norm_num)⟩

/-- Witness for the amended C3 on a two-node table with distinct values. -/
theorem plog_exact_and_strict_interp_witness :
    plogRate 1 1 [(1, ⟨1, 0, 0⟩), (4, ⟨2, 0, 0⟩)] = arrheniusRate ⟨1, 0, 0⟩ 1 ∧
    strictlyBetween (arrheniusRate ⟨1, 0, 0⟩ 1) (arrheniusRate ⟨2, 0, 0⟩ 1)
      (plogRate 1 2 [(1, ⟨1, 0, 0⟩), (4, ⟨2, 0, 0⟩)]) := by
  have h := plog_exact_and_strict_interp 1 2 [(1, ⟨1, 0, 0⟩), (4, ⟨2, 0, 0⟩)]
    sampleNodes_sorted sampleNodes_pos
  refine ⟨h.1 [] 1 ⟨1, 0, 0⟩ [(4, ⟨2, 0, 0⟩)] rfl, ?_⟩
  refine h.2 [] 1 ⟨1, 0, 0⟩ 4 ⟨2, 0, 0⟩ [] rfl (by norm_num) (by norm_num) ?_
  rw [sampleArr1_eq, sampleArr2_eq]
  norm_num

/-- Witness for C4: a query below the table, above the table, and a
Chebyshev query outside both declared ranges. -/
theorem out_of_range_clamps_witness :
    plogRate 1 (1 / 2) [(1, ⟨1, 0, 0⟩), (4, ⟨2, 0, 0⟩)] =
      arrheniusRate ⟨1, 0, 0⟩ 1 ∧
    plogRate 1 8 [(1, ⟨1, 0, 0⟩), (4, ⟨2, 0, 0⟩)] =
      arrheniusRate ⟨2, 0, 0⟩ 1 ∧
    chebRate sampleCheb 100 20 =
      chebRate sampleCheb (clampR 300 2000 100) (clampR 1 10 20) := by
  refine ⟨(out_of_range_clamps 1 (1 / 2)).1 1 ⟨1, 0, 0⟩ [(4, ⟨2, 0, 0⟩)]
    (by norm_num), ?_, ?_⟩
  · exact (out_of_range_clamps 1 8).2.1 [(1, ⟨1, 0, 0⟩)] 4 ⟨2, 0, 0⟩
      sampleNodes_sorted (by norm_num)
  · exact ((out_of_range_clamps 100 20).2.2 sampleCheb
      (show (300 : ℝ) ≤ 2000 by norm_num) (show (1 : ℝ) ≤ 10 by norm_num)).1

/-- Witness for C6 at a warmed-up manager whose pressure then changes. -/
theorem pressure_only_frame_witness :
    update_rates_T sampleWarm = (sampleWarm, false) ∧
    (updateAll (setPressure 5 sampleWarm)).2.1 = false ∧
    (updateAll (setPressure 5 sampleWarm)).1.m_rfn.getD 0 0 =
      sampleWarm.m_rfn.getD 0 0 ∧
    (updateAll (setPressure 5 sampleWarm)).2.2 = true := by
  have h := pressure_only_frame sampleWarm 5
  have h2 := h.2 rfl
  exact ⟨h.1 rfl, h2.1,
    h2.2.2.2.1 0 sampleElem { A := 2, b := 0, Ea := 0 } rfl rfl,
    (h2.2.2.2.2 rfl (show (5 : ℝ) ≠ 2 by norm_num)).1⟩

/-- Witness for C7 at the concrete irreversible reaction. -/
theorem updateROP_irreversible_zero_witness :
    (updateROP sampleMgr).1.2.getD 0 0 = 0 :=
  updateROP_irreversible_zero sampleMgr 0 sampleElem rfl rfl

/-- Witness for C8: replacing the single registered reaction. -/
theorem modifyReaction_replaces_witness :
    (modifyReaction 0 sampleNew sampleMgr).1 = true ∧
    (modifyReaction 0 sampleNew sampleMgr).2.reactions.get? 0 =
      some sampleNew ∧
    (getFwdRateConstants (modifyReaction 0 sampleNew sampleMgr).2).1 =
      assembleKf (recomputeC
        (recomputeT (modifyReaction 0 sampleNew sampleMgr).2)) := by
  have h := modifyReaction_replaces_and_invalidates sampleMgr 0 sampleNew
    sampleElem rfl rfl
  exact ⟨h.1, h.2.1, h.2.2.2.2.2.2⟩

/-- Witness for C9: registering a reaction on an unknown species fails
and leaves the manager untouched. -/
theorem addReaction_unknown_species_witness :
    addReaction sampleBad sampleMgr = (false, sampleMgr) :=
  addReaction_unknown_species sampleMgr sampleBad 5
    (by simp [speciesOf, sampleBad])
    (show ¬ (5 : Nat) < 1 by omega)

end Cantera
